import Mathlib

/-
Verification development for the sgx_server attestation session engine.

The embedding covers:
  * the coordinate codec and the Diffie-Hellman exchange / CMAC key
    derivation layer of src/unnamed/part_001 (`reverse`, `marshalPublicKey`,
    `unmarshalPublicKey`, `exchange`, `kdk`, `keyDerivationString`,
    `deriveLabelKeyFromBase`);
  * the session manager of src/unnamed/part_000 (`NewSessionManager`,
    `getSession`, `NewSession`, `Msg1ToMsg2`, `Msg3ToMsg4`).

Bytes are embedded as `Nat` (every byte produced by the code is < 256);
byte strings are `List Nat`.  Go's in-place slice mutation is embedded
functionally: a function that mutates a caller-visible slice returns the
final contents of that slice alongside its result.  Randomness
(`crypto/rand`) is embedded as explicit oracle inputs.  The AES-128 block
cipher (crypto/aes) and CMAC (github.com/aead/cmac) are external libraries
the repository calls; they are embedded concretely from FIPS-197 and
NIST SP 800-38B / RFC 4493 below.
-/

/-! ## Byte-string primitives -/

/-- Big-endian minimal-length byte representation of a natural number:
the embedding of Go `math/big.Int.Bytes()` (empty for zero). -/
def natToBytesBE (n : Nat) : List Nat :=
  if h : n = 0 then [] else natToBytesBE (n / 256) ++ [n % 256]
termination_by n
decreasing_by exact Nat.div_lt_self (Nat.pos_of_ne_zero h) (by omega)

/-- Big-endian interpretation of a byte string as a natural number:
the embedding of Go `math/big.Int.SetBytes` and (for 8-byte strings)
`binary.BigEndian.Uint64` before its 2^64 truncation. -/
def bytesBEToNat (bs : List Nat) : Nat :=
  bs.foldl (fun acc b => acc * 256 + b) 0

/-- The embedding of Go `copy(dst[i:], src)`: writes `src` over `dst`
starting at index `i`, truncating at the end of `dst`; the length of the
destination never changes. -/
def listCopy (dst : List Nat) (i : Nat) (src : List Nat) : List Nat :=
  dst.take i ++ src.take (min src.length (dst.length - i)) ++
    dst.drop (i + min src.length (dst.length - i))

/-! ## Coordinate codec (src/unnamed/part_001)

Go's helper `reverse` (part_001 lines 68-72) reverses a byte slice in
place with a two-pointer swap loop; its functional embedding is
`List.reverse`.  `pad32` embeds the pattern
`var a [32]byte; copy(a[32-len(bs):], bs)` shared by `exchange` and
`marshalPublicKey`.  (For `bs` longer than 32 bytes Go would panic on the
negative slice offset; that case is unreachable because every coordinate
of a P-256 point is below 2^256, and the theorems below carry that
bound.) -/

def pad32 (bs : List Nat) : List Nat :=
  listCopy (List.replicate 32 0) (32 - bs.length) bs

/-- The per-coordinate wire encoding used identically by `exchange` and
`marshalPublicKey`: left-pad the big-endian bytes to 32, then reverse. -/
def encodeCoord (x : Nat) : List Nat :=
  (pad32 (natToBytesBE x)).reverse

/-- `marshalPublicKey` (part_001 lines 74-82): encodes the two
coordinates of a public key into two 32-byte little-endian strings.
The Go function also returns an always-`nil` error, omitted here. -/
def marshalPublicKey (x y : Nat) : List Nat × List Nat :=
  (encodeCoord x, encodeCoord y)

/-- `unmarshalPublicKey` (part_001 lines 84-100): reverses both input
slices in place, parses them as big-endian integers, then reverses both
slices back.  The first component is the parsed (X, Y); the second
component is the final caller-visible contents of the two input slices
(the in-place mutations, restored before returning).  The Go function
also returns an always-`nil` error, omitted here. -/
def unmarshalPublicKey (xb yb : List Nat) : (Nat × Nat) × (List Nat × List Nat) :=
  let xr := xb.reverse
  let yr := yb.reverse
  ((bytesBEToNat xr, bytesBEToNat yr), (xr.reverse, yr.reverse))

/-! ## The P-256 curve model

`exchange` calls `elliptic.P256().ScalarMult`, an external primitive
(crypto/elliptic).  The P-256 group is cyclic of prime order `p256n`
generated by the base point G, so a point is represented losslessly by
its discrete logarithm base G, an element of `ZMod p256n`; the public
key of private scalar `d` is the point with discrete logarithm `d`, and
`ScalarMult` of the point with discrete logarithm `q` by scalar `d`
yields the point with discrete logarithm `d * q`.  The x-coordinate of a
point is an arbitrary function `xCoord` of the representation, over
which every theorem below is universally quantified. -/

/-- The P-256 field prime. -/
def p256p : Nat :=
  0xffffffff00000001000000000000000000000000ffffffffffffffffffffffff

/-- The P-256 curve coefficient b (the curve is y^2 = x^3 - 3x + b). -/
def p256b : Nat :=
  0x5ac635d8aa3a93e7b3ebbd55769886bc651d06b0cc53b0f63bce3c3e27d2604b

/-- The order of the P-256 base-point group. -/
def p256n : Nat :=
  0xffffffff00000000ffffffffffffffffbce6faada7179e84f3b9cac2fc632551

/-- x-coordinate of the P-256 base point G. -/
def p256Gx : Nat :=
  0x6b17d1f2e12c4247f8bce6e563a440f277037d812deb33a0f4a13945d898c296

/-- y-coordinate of the P-256 base point G. -/
def p256Gy : Nat :=
  0x4fe342e2fe1a7f9b8ee7eb4a7c0f9e162bce33576b315ececbb6406837bf51f5

/-- A valid affine P-256 point: both coordinates reduced mod the field
prime and the curve equation y^2 = x^3 - 3x + b satisfied (stated over
Nat with the subtraction folded into an addition of `p256p - 3x mod p`). -/
def ValidP256Point (x y : Nat) : Prop :=
  x < p256p ∧ y < p256p ∧
    (y * y) % p256p = (x * x * x + p256b + (p256p - (3 * x) % p256p)) % p256p

instance (x y : Nat) : Decidable (ValidP256Point x y) := by
  unfold ValidP256Point; infer_instance

/-- The public key of private scalar `d`, as a discrete logarithm:
`d` times the base point. -/
def pubKeyOf (d : Nat) : ZMod p256n := (d : ZMod p256n)

/-- The x-coordinate (according to the coordinate function `xCoord`) of
`ScalarMult(peer, mine.D)`: the point with discrete logarithm
`d * q` where `q` is the peer point's discrete logarithm. -/
def sharedPointX (xCoord : ZMod p256n → Nat) (d : Nat) (q : ZMod p256n) : Nat :=
  xCoord ((d : ZMod p256n) * q)

/-- `exchange` (part_001 lines 18-30): scalar-multiplies the peer's
public point by this party's private scalar, keeps the resulting
x-coordinate, left-pads its big-endian bytes to 32 and reverses them. -/
def exchange (xCoord : ZMod p256n → Nat) (d : Nat) (q : ZMod p256n) : List Nat :=
  encodeCoord (sharedPointX xCoord d q)

/-- Written from the spec's words, for comparison with `exchange`: "the
natural big-endian minimal-length byte representation of each coordinate
is zero-padded on the left to 32 bytes, then byte-reversed to produce
the little-endian wire form". -/
def specCoordWireForm (x : Nat) : List Nat :=
  (List.replicate (32 - (natToBytesBE x).length) 0 ++ natToBytesBE x).reverse

/-! ## AES-128 (FIPS-197)

The concrete embedding of the external `crypto/aes` block cipher used by
`kdk` and `deriveLabelKeyFromBase` through `cmac.Sum`.  The S-box is
defined mathematically (multiplicative inverse in GF(2^8) followed by
the affine transform); known-answer theorems below check it against the
published table values and a full FIPS-197 appendix C.1 block. -/

/-- Multiplication by x in GF(2^8) modulo x^8 + x^4 + x^3 + x + 1. -/
def xtime (a : Nat) : Nat :=
  if a < 128 then a * 2 else ((a * 2) % 256) ^^^ 27

/-- Russian-peasant step loop for GF(2^8) multiplication. -/
def gfMulAux : Nat → Nat → Nat → Nat → Nat
  | 0, _, _, acc => acc
  | n + 1, a, b, acc =>
      gfMulAux n (xtime a) (b / 2) (if b % 2 = 1 then acc ^^^ a else acc)

/-- GF(2^8) multiplication. -/
def gfMul (a b : Nat) : Nat := gfMulAux 8 (a % 256) (b % 256) 0

/-- GF(2^8) multiplicative inverse via a^254 (square-and-multiply:
254 = 2 + 4 + 8 + 16 + 32 + 64 + 128), which also maps 0 to 0. -/
def gfInv (a : Nat) : Nat :=
  let a2 := gfMul a a
  let a4 := gfMul a2 a2
  let a8 := gfMul a4 a4
  let a16 := gfMul a8 a8
  let a32 := gfMul a16 a16
  let a64 := gfMul a32 a32
  let a128 := gfMul a64 a64
  gfMul a128 (gfMul a64 (gfMul a32 (gfMul a16 (gfMul a8 (gfMul a4 a2)))))

/-- Left rotation of a byte. -/
def rotl8 (b n : Nat) : Nat := ((b * 2 ^ n) % 256) ^^^ (b / 2 ^ (8 - n))

/-- The AES S-box: multiplicative inverse in GF(2^8) followed by the
affine transform of FIPS-197 5.1.1. -/
def sbox (a : Nat) : Nat :=
  let inv := gfInv (a % 256)
  inv ^^^ rotl8 inv 1 ^^^ rotl8 inv 2 ^^^ rotl8 inv 3 ^^^ rotl8 inv 4 ^^^ 99

/-- GF(2^8) multiplication by 2, as used in MixColumns. -/
def mul2 (a : Nat) : Nat := xtime a

/-- GF(2^8) multiplication by 3, as used in MixColumns. -/
def mul3 (a : Nat) : Nat := xtime a ^^^ a

/-- Pointwise XOR of two byte strings (length = the shorter input). -/
def xorBytes (a b : List Nat) : List Nat := List.zipWith (· ^^^ ·) a b

/-- SubWord of the AES key schedule. -/
def subWord (w : List Nat) : List Nat := w.map sbox

/-- RotWord of the AES key schedule: one-byte cyclic left shift. -/
def rotWord (w : List Nat) : List Nat := w.drop 1 ++ w.take 1

/-- The AES round-constant bytes: rconByte 0 = 1, doubling in GF(2^8). -/
def rconByte : Nat → Nat
  | 0 => 1
  | n + 1 => xtime (rconByte n)

/-- One step of the AES-128 key schedule: from a 16-byte round key and a
round-constant byte to the next 16-byte round key. -/
def nextRoundKey (rk : List Nat) (rc : Nat) : List Nat :=
  let w3 := rk.drop 12
  let t := xorBytes (subWord (rotWord w3)) [rc, 0, 0, 0]
  let n0 := xorBytes (rk.take 4) t
  let n1 := xorBytes ((rk.drop 4).take 4) n0
  let n2 := xorBytes ((rk.drop 8).take 4) n1
  let n3 := xorBytes w3 n2
  n0 ++ n1 ++ n2 ++ n3

/-- The round keys from round key `rk` onward, `steps` more rounds,
using round constants `rconByte i`, `rconByte (i+1)`, .... -/
def roundKeysFrom (rk : List Nat) (i : Nat) : Nat → List (List Nat)
  | 0 => [rk]
  | steps + 1 => rk :: roundKeysFrom (nextRoundKey rk (rconByte i)) (i + 1) steps

/-- The eleven AES-128 round keys of a 16-byte key. -/
def roundKeys (key : List Nat) : List (List Nat) := roundKeysFrom key 0 10

/-- ShiftRows source indices for the column-major flat state. -/
def shiftRowsIdx : List Nat := [0, 5, 10, 15, 4, 9, 14, 3, 8, 13, 2, 7, 12, 1, 6, 11]

/-- ShiftRows on the 16-byte column-major state. -/
def shiftRows (s : List Nat) : List Nat := shiftRowsIdx.map (fun i => s.getD i 0)

/-- MixColumns on a single 4-byte column. -/
def mixColumn (c : List Nat) : List Nat :=
  let a0 := c.getD 0 0
  let a1 := c.getD 1 0
  let a2 := c.getD 2 0
  let a3 := c.getD 3 0
  [mul2 a0 ^^^ mul3 a1 ^^^ a2 ^^^ a3,
   a0 ^^^ mul2 a1 ^^^ mul3 a2 ^^^ a3,
   a0 ^^^ a1 ^^^ mul2 a2 ^^^ mul3 a3,
   mul3 a0 ^^^ a1 ^^^ a2 ^^^ mul2 a3]

/-- MixColumns on the 16-byte state. -/
def mixColumns (s : List Nat) : List Nat :=
  ((List.range 4).map (fun c => mixColumn ((s.drop (4 * c)).take 4))).flatten

/-- AES-128 block encryption of a 16-byte block under a 16-byte key. -/
def aes128Encrypt (key block : List Nat) : List Nat :=
  let rks := roundKeys key
  let s0 := xorBytes block (rks.getD 0 [])
  let s9 := (List.range 9).foldl
    (fun s r => xorBytes (mixColumns (shiftRows (s.map sbox))) (rks.getD (r + 1) [])) s0
  xorBytes (shiftRows (s9.map sbox)) (rks.getD 10 [])

/-! ## CMAC (NIST SP 800-38B / RFC 4493)

The concrete embedding of `cmac.Sum(msg, aesCipher, aes.BlockSize)` from
github.com/aead/cmac: tag size = block size = 16. -/

/-- Doubling in GF(2^128) of a 16-byte block: shift left one bit, and
XOR 0x87 into the last byte when the shifted-out bit was set. -/
def dblBlock (b : List Nat) : List Nat :=
  let shifted := List.zipWith (fun x y => ((x * 2) % 256) ^^^ (y / 128)) b (b.drop 1 ++ [0])
  if 128 ≤ b.headD 0 then shifted.set 15 ((shifted.getD 15 0) ^^^ 135) else shifted

/-- CMAC subkey K1. -/
def cmacK1 (key : List Nat) : List Nat :=
  dblBlock (aes128Encrypt key (List.replicate 16 0))

/-- CMAC subkey K2. -/
def cmacK2 (key : List Nat) : List Nat := dblBlock (cmacK1 key)

/-- The CBC chain of CMAC: consume full blocks while more than one block
remains; the final block is XORed with K1 (complete) or 0x80-padded and
XORed with K2 (incomplete or empty). -/
def cmacBlocks (key k1 k2 x m : List Nat) : List Nat :=
  if h : 16 < m.length then
    cmacBlocks key k1 k2 (aes128Encrypt key (xorBytes x (m.take 16))) (m.drop 16)
  else if m.length = 16 then
    aes128Encrypt key (xorBytes (xorBytes x m) k1)
  else
    aes128Encrypt key (xorBytes (xorBytes x (m ++ 128 :: List.replicate (15 - m.length) 0)) k2)
termination_by m.length
decreasing_by simp [List.length_drop]; omega

/-- `cmac.Sum` under an AES-128 key: the 16-byte CMAC tag of `msg`. -/
def cmacSum (key msg : List Nat) : List Nat :=
  cmacBlocks key (cmacK1 key) (cmacK2 key) (List.replicate 16 0) msg

/-! ## Key derivation (src/unnamed/part_001)

`kdk` and `deriveLabelKeyFromBase` call `aes.NewCipher` and abort the
process via `log.Fatal` if cipher construction or `cmac.Sum` fails;
`aes.NewCipher` fails only for key lengths outside {16, 24, 32}, and the
keys used are 16 bytes (the all-zero CMAC key, and the 16-byte CMAC
outputs used as bases), so those branches are unreachable and the
embeddings below are total functions on the success path. -/

/-- `kdk` (part_001 lines 112-126): the CMAC of the exchange's 32-byte
shared secret under the all-zero 128-bit AES key. -/
def kdk (xCoord : ZMod p256n → Nat) (d : Nat) (q : ZMod p256n) : List Nat :=
  cmacSum (List.replicate 16 0) (exchange xCoord d q)

/-- `keyDerivationString` (part_001 lines 128-134): allocate
`4 + len(label)` zero bytes, copy the label in at offset 1, set byte 0
to 0x01 and the second-to-last byte to 0x80. -/
def keyDerivationString (label : List Nat) : List Nat :=
  let out := List.replicate (4 + label.length) 0
  let out2 := listCopy out 1 label
  let out3 := out2.set 0 1
  out3.set (out3.length - 2) 128

/-- `deriveLabelKeyFromBase` (part_001 lines 151-162): the CMAC of the
key-derivation string of `label` under `base`. -/
def deriveLabelKeyFromBase (base label : List Nat) : List Nat :=
  cmacSum base (keyDerivationString label)

/-! ## Session manager (src/unnamed/part_000)

The session table `map[uint64]*Session` is embedded as an association
list from Nat keys to `Option Session` values, where the value `none`
embeds a `nil` `*Session` pointer (the table is seeded with
`sessions[0] = nil` at construction).  `crypto/rand` is embedded as
explicit oracle arguments: the 32 challenge bytes and the stream of
8-byte session-id candidates consumed by `NewSession`'s retry loop.  All
failure paths of `NewSession` (randomness errors, short reads, and an
exhausted candidate oracle standing in for a never-terminating retry
loop) collapse to `none`.  The concurrency of the Go code (the
`sync.RWMutex` around the table) is not modelled; operations are atomic
steps on the manager state.

`Session` itself (session.go) is not part of src/; the fields the
manager claims need are modelled from the spec below. -/

/-- Modelled from the spec: the per-session state machine of session.go
(not under src/) — "States: AwaitingMsg1 → AwaitingMsg3 → Established or
Failed". -/
inductive SessionPhase where
  | awaitingMsg1
  | awaitingMsg3
  | established
  | failed
deriving DecidableEq

/-- Modelled from the spec: a session as the manager sees it — its id
and its state-machine phase (key material and verdicts are internal to
session.go and irrelevant to the manager-level claims). -/
structure Session where
  id : Nat
  phase : SessionPhase
deriving DecidableEq

/-- A fresh session as built by the session constructor called at
part_000 line 74: it starts awaiting message 1. -/
def mkSession (id : Nat) : Session := ⟨id, .awaitingMsg1⟩

/-- The session manager: the table of in-flight sessions.  The
collaborator fields of the Go struct (mrenclaves, spid, longTermKey,
ias) never influence the table dynamics and are omitted. -/
structure SessionManager where
  sessions : List (Nat × Option Session)
deriving DecidableEq

/-- Association-list lookup with Go map semantics: `none` when the key
is absent, `some v` when present (`v` itself is `none` for a nil
session pointer). -/
def assocLookup : List (Nat × Option Session) → Nat → Option (Option Session)
  | [], _ => none
  | (k, v) :: t, id => if k = id then some v else assocLookup t id

/-- Association-list insert with Go map-assignment semantics: replace
the binding if the key is present, append otherwise. -/
def mapInsert : List (Nat × Option Session) → Nat → Option Session → List (Nat × Option Session)
  | [], k, v => [(k, v)]
  | (k', v') :: t, k, v =>
      if k' = k then (k, v) :: t else (k', v') :: mapInsert t k v

/-- `NewSessionManager` (part_000 lines 24-38): the table is seeded with
`sessions[0] = nil`. -/
def NewSessionManager : SessionManager := ⟨[(0, none)]⟩

/-- `getSession` (part_000 lines 40-45): the two-valued Go map read
`session, ok := as.sessions[id]`. -/
def getSession (as : SessionManager) (id : Nat) : Option Session × Bool :=
  match assocLookup as.sessions id with
  | none => (none, false)
  | some v => (v, true)

/-- The id-generation retry loop of `NewSession` (part_000 lines 56-70):
each candidate is the 8 bytes of one `rand.Read`; a short read aborts
with an error, a candidate whose big-endian Uint64 value is already a
table key is retried, and the first fresh value is returned.  An
exhausted oracle (`none`) stands in for a loop that never finds a fresh
id. -/
def pickSessionId (as : SessionManager) : List (List Nat) → Option Nat
  | [] => none
  | bs :: rest =>
      if bs.length = 8 then
        if (getSession as (bytesBEToNat bs % 2 ^ 64)).2 then pickSessionId as rest
        else some (bytesBEToNat bs % 2 ^ 64)
      else none

/-- `NewSession` (part_000 lines 47-81): demand a 32-byte challenge from
the randomness oracle, pick a fresh session id, store a fresh session
under it, and return the id with the challenge (the `Challenge` proto
message). -/
def NewSession (as : SessionManager) (challenge : List Nat) (cands : List (List Nat)) :
    Option ((Nat × List Nat) × SessionManager) :=
  if challenge.length = 32 then
    match pickSessionId as cands with
    | some id => some ((id, challenge), ⟨mapInsert as.sessions id (some (mkSession id))⟩)
    | none => none
  else none

/-- Modelled from the spec: `ProcessMsg1` of session.go (not under
src/) — accepted only in state AwaitingMsg1, advancing to AwaitingMsg3;
in any other state it fails with a sequencing error and leaves the
session unchanged. -/
def processMsg1 (s : Session) : Except String Session :=
  match s.phase with
  | .awaitingMsg1 => .ok { s with phase := .awaitingMsg3 }
  | _ => .error "Session not in the right state"

/-- Modelled from the spec: `ProcessMsg3` of session.go (not under
src/) — accepted only in state AwaitingMsg3, advancing to Established. -/
def processMsg3 (s : Session) : Except String Session :=
  match s.phase with
  | .awaitingMsg3 => .ok { s with phase := .established }
  | _ => .error "Session not in the right state"

/-- The caller-visible outcome of a dispatch: a successful reply, an
error return, or a nil-pointer dereference (the Go runtime panic that
calling `ProcessMsg1`/`ProcessMsg3` on a nil `*Session` produces). -/
inductive Outcome where
  | ok : Outcome
  | err : String → Outcome
  | nilDeref : Outcome
deriving DecidableEq

/-- `Msg1ToMsg2` (part_000 lines 83-94), keyed by `msg1.SessionId`:
absent id fails with "Session not found"; a nil stored session is
dereferenced; otherwise the session processes message 1 (the session
mutation through the shared pointer is embedded by writing the updated
session back into the table; `CreateMsg2`'s reply contents are internal
to session.go and elided in `Outcome.ok`). -/
def Msg1ToMsg2 (as : SessionManager) (sid : Nat) : Outcome × SessionManager :=
  match getSession as sid with
  | (_, false) => (.err "Session not found", as)
  | (none, true) => (.nilDeref, as)
  | (some s, true) =>
      match processMsg1 s with
      | .error e => (.err e, as)
      | .ok s2 => (.ok, ⟨mapInsert as.sessions sid (some s2)⟩)

/-- `Msg3ToMsg4` (part_000 lines 96-107), keyed by `msg3.SessionId`:
same shape as `Msg1ToMsg2` with the message-3 transition. -/
def Msg3ToMsg4 (as : SessionManager) (sid : Nat) : Outcome × SessionManager :=
  match getSession as sid with
  | (_, false) => (.err "Session not found", as)
  | (none, true) => (.nilDeref, as)
  | (some s, true) =>
      match processMsg3 s with
      | .error e => (.err e, as)
      | .ok s2 => (.ok, ⟨mapInsert as.sessions sid (some s2)⟩)

/-- Whether `id` is bound to a live (non-nil) session in the table. -/
def isLiveSession (as : SessionManager) (id : Nat) : Bool :=
  match assocLookup as.sessions id with
  | some (some _) => true
  | _ => false

/-- The number of live (non-nil) sessions in the table. -/
def countLive (as : SessionManager) : Nat :=
  (as.sessions.filter (fun p => p.2.isSome)).length

/-- The manager states reachable from construction through the three
public operations, with arbitrary randomness oracles and session ids. -/
inductive Reachable : SessionManager → Prop where
  | init : Reachable NewSessionManager
  | create : ∀ m ch cands id chal m', Reachable m →
      NewSession m ch cands = some ((id, chal), m') → Reachable m'
  | step1 : ∀ m sid, Reachable m → Reachable (Msg1ToMsg2 m sid).2
  | step3 : ∀ m sid, Reachable m → Reachable (Msg3ToMsg4 m sid).2

/-- Sequential creation of one session per oracle pair, returning the
ids in creation order: the scenario behind "creating N sessions yields N
distinct ids". -/
def createMany (m : SessionManager) :
    List (List Nat × List (List Nat)) → Option (List Nat × SessionManager)
  | [] => some ([], m)
  | (ch, cands) :: rest =>
      match NewSession m ch cands with
      | some ((id, _), m') =>
          match createMany m' rest with
          | some (ids, mf) => some (id :: ids, mf)
          | none => none
      | none => none

/-! ## Byte-string lemmas -/

theorem bytesBEToNat_append_singleton (l : List Nat) (b : Nat) :
    bytesBEToNat (l ++ [b]) = bytesBEToNat l * 256 + b := by
  simp [bytesBEToNat, List.foldl_append]

theorem bytesBEToNat_natToBytesBE (n : Nat) : bytesBEToNat (natToBytesBE n) = n := by
  induction n using Nat.strong_induction_on with
  | _ n ih =>
    by_cases h : n = 0
    · subst h; rw [natToBytesBE]; simp [bytesBEToNat]
    · rw [natToBytesBE]
      simp only [h, dite_false]
      rw [bytesBEToNat_append_singleton,
        ih (n / 256) (Nat.div_lt_self (Nat.pos_of_ne_zero h) (by omega))]
      omega

theorem bytesBEToNat_replicate_zero_append (k : Nat) (bs : List Nat) :
    bytesBEToNat (List.replicate k 0 ++ bs) = bytesBEToNat bs := by
  have hz : List.foldl (fun acc b => acc * 256 + b) 0 (List.replicate k 0) = 0 := by
    induction k with
    | zero => rfl
    | succ k ihk => rw [List.replicate_succ]; simpa using ihk
  simp [bytesBEToNat, List.foldl_append, hz]

theorem natToBytesBE_length_le : ∀ (k n : Nat), n < 256 ^ k → (natToBytesBE n).length ≤ k := by
  intro k
  induction k with
  | zero =>
    intro n hn
    have : n = 0 := by simpa using hn
    subst this; rw [natToBytesBE]; simp
  | succ k ihk =>
    intro n hn
    by_cases h : n = 0
    · subst h; rw [natToBytesBE]; simp
    · rw [natToBytesBE]
      simp only [h, dite_false, List.length_append, List.length_cons, List.length_nil]
      have hdiv : n / 256 < 256 ^ k := by
        rw [Nat.div_lt_iff_lt_mul (by omega)]
        calc n < 256 ^ (k + 1) := hn
          _ = 256 ^ k * 256 := by rw [Nat.pow_succ]
      have := ihk (n / 256) hdiv
      omega

theorem listCopy_length (dst src : List Nat) (i : Nat) :
    (listCopy dst i src).length = dst.length := by
  simp only [listCopy, List.length_append, List.length_take, List.length_drop]
  omega

theorem pad32_length (bs : List Nat) : (pad32 bs).length = 32 := by
  rw [pad32, listCopy_length]; simp

theorem pad32_eq (bs : List Nat) (h : bs.length ≤ 32) :
    pad32 bs = List.replicate (32 - bs.length) 0 ++ bs := by
  have h32 : (List.replicate 32 (0 : Nat)).length = 32 := by simp
  have hmin : min bs.length ((List.replicate 32 (0 : Nat)).length - (32 - bs.length)) =
      bs.length := by rw [h32]; omega
  rw [pad32, listCopy, hmin, List.take_length, List.take_replicate, List.drop_replicate]
  have h1 : min (32 - bs.length) 32 = 32 - bs.length := by omega
  have h2 : 32 - (32 - bs.length + bs.length) = 0 := by omega
  rw [h1, h2]
  simp

theorem encodeCoord_length (x : Nat) : (encodeCoord x).length = 32 := by
  simp [encodeCoord, pad32_length]

theorem decode_encodeCoord (x : Nat) (h : x < 256 ^ 32) :
    bytesBEToNat (encodeCoord x).reverse = x := by
  rw [encodeCoord, List.reverse_reverse,
    pad32_eq (natToBytesBE x) (natToBytesBE_length_le 32 x h),
    bytesBEToNat_replicate_zero_append, bytesBEToNat_natToBytesBE]

theorem p256p_lt : p256p < 256 ^ 32 := by decide

/-! ## Claim theorems: coordinate codec and exchange -/

/-- C1: for every valid P-256 point (x, y), decoding the two 32-byte
little-endian strings produced by `marshalPublicKey` yields a public key
whose X and Y equal the original x and y — including points whose
coordinate's big-endian encoding is shorter than 32 bytes (the theorem
holds for all coordinates below the field prime, with no constraint on
the minimal encoding's length). -/
theorem marshal_unmarshal_roundtrip (x y : Nat) (h : ValidP256Point x y) :
    (unmarshalPublicKey (marshalPublicKey x y).1 (marshalPublicKey x y).2).1 = (x, y) := by
  obtain ⟨hx, hy, _⟩ := h
  simp only [marshalPublicKey, unmarshalPublicKey]
  rw [decode_encodeCoord x (lt_trans hx p256p_lt),
    decode_encodeCoord y (lt_trans hy p256p_lt)]

/-- Witness for C1 at the P-256 base point G. -/
theorem marshal_unmarshal_roundtrip_witness :
    ValidP256Point p256Gx p256Gy ∧
      (unmarshalPublicKey (marshalPublicKey p256Gx p256Gy).1
        (marshalPublicKey p256Gx p256Gy).2).1 = (p256Gx, p256Gy) :=
  ⟨by decide, marshal_unmarshal_roundtrip p256Gx p256Gy (by decide)⟩

/-- C2: for every private key and peer public key (and every coordinate
function of the curve model), `exchange` returns exactly 32 bytes equal
to the byte-reversal of the big-endian encoding of the x-coordinate of
the scalar multiplication, zero-padded on the left to 32 bytes before
the reversal. -/
theorem exchange_wire_form (xCoord : ZMod p256n → Nat) (d : Nat) (q : ZMod p256n)
    (h : sharedPointX xCoord d q < 256 ^ 32) :
    exchange xCoord d q = specCoordWireForm (sharedPointX xCoord d q) ∧
      (exchange xCoord d q).length = 32 := by
  constructor
  · rw [exchange, encodeCoord, specCoordWireForm,
      pad32_eq _ (natToBytesBE_length_le 32 _ h)]
  · rw [exchange, encodeCoord_length]

/-- Witness for C2 at a point with x-coordinate 3, whose big-endian
encoding is a single byte, exercising the pad-before-reverse order. -/
theorem exchange_wire_form_witness :
    sharedPointX (fun _ => 3) 1 1 < 256 ^ 32 ∧
      (exchange (fun _ => 3) 1 1 = specCoordWireForm (sharedPointX (fun _ => 3) 1 1) ∧
        (exchange (fun _ => 3) 1 1).length = 32) :=
  ⟨by decide, exchange_wire_form (fun _ => 3) 1 1 (by decide)⟩

/-- C10: `unmarshalPublicKey` returns both input slices with exactly
their original contents: it reverses them in place before parsing and
reverses them back before returning. -/
theorem unmarshal_preserves_buffers (xb yb : List Nat)
    (hx : xb.length = 32) (hy : yb.length = 32) :
    (unmarshalPublicKey xb yb).2 = (xb, yb) := by
  simp [unmarshalPublicKey]

/-! ## AES/CMAC output-length lemmas -/

theorem xorBytes_length (a b : List Nat) :
    (xorBytes a b).length = min a.length b.length := by
  simp [xorBytes]

theorem nextRoundKey_length (rk : List Nat) (h : rk.length = 16) (rc : Nat) :
    (nextRoundKey rk rc).length = 16 := by
  simp only [nextRoundKey, xorBytes, subWord, rotWord, List.length_append,
    List.length_zipWith, List.length_map, List.length_take, List.length_drop,
    List.length_cons, List.length_nil, h]
  omega

theorem roundKeysFrom_length :
    ∀ (steps : Nat) (rk : List Nat) (i : Nat), (roundKeysFrom rk i steps).length = steps + 1 := by
  intro steps
  induction steps with
  | zero => intro rk i; rfl
  | succ s ih => intro rk i; simp [roundKeysFrom, ih]

theorem roundKeysFrom_mem_length :
    ∀ (steps : Nat) (rk : List Nat) (i : Nat), rk.length = 16 →
      ∀ w ∈ roundKeysFrom rk i steps, w.length = 16 := by
  intro steps
  induction steps with
  | zero =>
    intro rk i h w hw
    simp only [roundKeysFrom, List.mem_singleton] at hw
    subst hw; exact h
  | succ s ih =>
    intro rk i h w hw
    simp only [roundKeysFrom, List.mem_cons] at hw
    rcases hw with hw | hw
    · subst hw; exact h
    · exact ih (nextRoundKey rk (rconByte i)) (i + 1) (nextRoundKey_length rk h _) w hw

theorem shiftRows_length (s : List Nat) : (shiftRows s).length = 16 := by
  simp [shiftRows, shiftRowsIdx]

theorem mixColumn_length (c : List Nat) : (mixColumn c).length = 4 := rfl

theorem mixColumns_length (s : List Nat) : (mixColumns s).length = 16 := by
  have h4 : List.range 4 = [0, 1, 2, 3] := by decide
  simp [mixColumns, h4, mixColumn_length]

theorem roundKeys_getD_length (key : List Nat) (h : key.length = 16) (r : Nat)
    (hr : r < 11) : ((roundKeys key).getD r []).length = 16 := by
  have hlen : (roundKeys key).length = 11 := roundKeysFrom_length 10 key 0
  rw [List.getD_eq_getElem _ _ (by omega)]
  exact roundKeysFrom_mem_length 10 key 0 h _ (List.getElem_mem _)

theorem aes128Encrypt_length (key : List Nat) (h : key.length = 16) (block : List Nat) :
    (aes128Encrypt key block).length = 16 := by
  simp only [aes128Encrypt, xorBytes_length, shiftRows_length,
    roundKeys_getD_length key h 10 (by omega)]
  omega

theorem cmacBlocks_length (key k1 k2 : List Nat) (hk : key.length = 16) :
    ∀ (x m : List Nat), (cmacBlocks key k1 k2 x m).length = 16 := by
  have H : ∀ (n : Nat) (x m : List Nat), m.length = n →
      (cmacBlocks key k1 k2 x m).length = 16 := by
    intro n
    induction n using Nat.strong_induction_on with
    | _ n ih =>
      intro x m hm
      rw [cmacBlocks]
      split
      · next hlt =>
        exact ih (m.drop 16).length (by simp; omega) _ (m.drop 16) rfl
      · split
        · exact aes128Encrypt_length key hk _
        · exact aes128Encrypt_length key hk _
  exact fun x m => H m.length x m rfl

theorem cmacSum_length (key msg : List Nat) (hk : key.length = 16) :
    (cmacSum key msg).length = 16 :=
  cmacBlocks_length key _ _ hk _ msg

/-! ## Known-answer checks for the AES/CMAC embedding

Spot checks of the S-box against the published FIPS-197 table values,
the FIPS-197 appendix C.1 block, and the RFC 4493 example 1 tag. -/

set_option maxRecDepth 100000 in
theorem sbox_known_values :
    sbox 0 = 0x63 ∧ sbox 1 = 0x7c ∧ sbox 0x53 = 0xed ∧ sbox 0xca = 0x74 := by
  decide

set_option maxRecDepth 1000000 in
theorem aes128_fips197_c1 :
    aes128Encrypt
      [0x00, 0x01, 0x02, 0x03, 0x04, 0x05, 0x06, 0x07,
       0x08, 0x09, 0x0a, 0x0b, 0x0c, 0x0d, 0x0e, 0x0f]
      [0x00, 0x11, 0x22, 0x33, 0x44, 0x55, 0x66, 0x77,
       0x88, 0x99, 0xaa, 0xbb, 0xcc, 0xdd, 0xee, 0xff] =
      [0x69, 0xc4, 0xe0, 0xd8, 0x6a, 0x7b, 0x04, 0x30,
       0xd8, 0xcd, 0xb7, 0x80, 0x70, 0xb4, 0xc5, 0x5a] := by
  decide

set_option maxRecDepth 1000000 in
theorem cmac_rfc4493_example1 :
    cmacSum
      [0x2b, 0x7e, 0x15, 0x16, 0x28, 0xae, 0xd2, 0xa6,
       0xab, 0xf7, 0x15, 0x88, 0x09, 0xcf, 0x4f, 0x3c] [] =
      [0xbb, 0x1d, 0x69, 0x29, 0xe9, 0x59, 0x37, 0x28,
       0x7f, 0xa3, 0x7d, 0x12, 0x9b, 0x75, 0x67, 0x46] := by
  have hL : aes128Encrypt
      [0x2b, 0x7e, 0x15, 0x16, 0x28, 0xae, 0xd2, 0xa6,
       0xab, 0xf7, 0x15, 0x88, 0x09, 0xcf, 0x4f, 0x3c] (List.replicate 16 0) =
      [0x7d, 0xf7, 0x6b, 0x0c, 0x1a, 0xb8, 0x99, 0xb3,
       0x3e, 0x42, 0xf0, 0x47, 0xb9, 0x1b, 0x54, 0x6f] := by decide
  have hK1 : dblBlock
      [0x7d, 0xf7, 0x6b, 0x0c, 0x1a, 0xb8, 0x99, 0xb3,
       0x3e, 0x42, 0xf0, 0x47, 0xb9, 0x1b, 0x54, 0x6f] =
      [0xfb, 0xee, 0xd6, 0x18, 0x35, 0x71, 0x33, 0x66,
       0x7c, 0x85, 0xe0, 0x8f, 0x72, 0x36, 0xa8, 0xde] := by decide
  have hK2 : dblBlock
      [0xfb, 0xee, 0xd6, 0x18, 0x35, 0x71, 0x33, 0x66,
       0x7c, 0x85, 0xe0, 0x8f, 0x72, 0x36, 0xa8, 0xde] =
      [0xf7, 0xdd, 0xac, 0x30, 0x6a, 0xe2, 0x66, 0xcc,
       0xf9, 0x0b, 0xc1, 0x1e, 0xe4, 0x6d, 0x51, 0x3b] := by decide
  rw [cmacSum, cmacK2, cmacK1, hL, hK1, hK2, cmacBlocks]
  decide

/-! ## Claim theorems: key derivation -/

/-- C3: `kdk` is the AES-128 CMAC, under the all-zero 128-bit key, of
the 32-byte shared secret that `exchange` produces on the same inputs,
and its output is 16 bytes. -/
theorem kdk_is_cmac_of_shared (xCoord : ZMod p256n → Nat) (d : Nat) (q : ZMod p256n) :
    kdk xCoord d q = cmacSum (List.replicate 16 0) (exchange xCoord d q) ∧
      (exchange xCoord d q).length = 32 ∧ (kdk xCoord d q).length = 16 :=
  ⟨rfl, by rw [exchange, encodeCoord_length],
    cmacSum_length (List.replicate 16 0) _ (by simp)⟩

/-- C5: the Diffie-Hellman exchange is symmetric in the two key pairs —
A's private scalar with B's public point gives the same shared secret,
and hence the same KDK, as B's private scalar with A's public point. -/
theorem dh_symmetric (xCoord : ZMod p256n → Nat) (dA dB : Nat) :
    exchange xCoord dA (pubKeyOf dB) = exchange xCoord dB (pubKeyOf dA) ∧
      kdk xCoord dA (pubKeyOf dB) = kdk xCoord dB (pubKeyOf dA) := by
  have hmul : ((dA : Nat) : ZMod p256n) * pubKeyOf dB =
      ((dB : Nat) : ZMod p256n) * pubKeyOf dA := by
    rw [pubKeyOf, pubKeyOf, mul_comm]
  have h1 : exchange xCoord dA (pubKeyOf dB) = exchange xCoord dB (pubKeyOf dA) := by
    simp only [exchange, sharedPointX, hmul]
  exact ⟨h1, by rw [kdk, kdk, h1]⟩

/-! ## Key-derivation-string structure lemmas -/

theorem getD_append_right_add (l1 l2 : List Nat) (i d : Nat) :
    (l1 ++ l2).getD (l1.length + i) d = l2.getD i d := by
  induction l1 with
  | nil => simp
  | cons a t ih =>
    simp only [List.cons_append, List.length_cons]
    have : t.length + 1 + i = (t.length + i) + 1 := by omega
    rw [this, List.getD_cons_succ, ih]

theorem set_append_right_add (l1 l2 : List Nat) (i v : Nat) :
    (l1 ++ l2).set (l1.length + i) v = l1 ++ l2.set i v := by
  induction l1 with
  | nil => simp
  | cons a t ih =>
    simp only [List.cons_append, List.length_cons]
    have : t.length + 1 + i = (t.length + i) + 1 := by omega
    rw [this, List.set_cons_succ, ih]

theorem keyDerivationString_eq (label : List Nat) :
    keyDerivationString label = 1 :: (label ++ [0, 128, 0]) := by
  have hcopy : listCopy (List.replicate (4 + label.length) 0) 1 label =
      0 :: (label ++ [0, 0, 0]) := by
    have hmin : min label.length (4 + label.length - 1) = label.length := by omega
    simp only [listCopy, List.length_replicate, hmin, List.take_length,
      List.take_replicate, List.drop_replicate]
    have h1 : min 1 (4 + label.length) = 1 := by omega
    have h2 : 4 + label.length - (1 + label.length) = 3 := by omega
    rw [h1, h2]
    rfl
  simp only [keyDerivationString, hcopy, List.set_cons_zero, List.length_cons,
    List.length_append, List.length_cons, List.length_nil]
  rw [show label.length + (0 + 1 + 1 + 1) + 1 - 2 = (label.length + 1) + 1 from by omega,
    List.set_cons_succ, set_append_right_add label [0, 0, 0] 1 128]
  rfl

/-- C4: the key-derivation input string has length `4 + len(label)`,
byte 0 = 0x01, the label at bytes 1..len(label), second-to-last byte
0x80 and last byte 0x00; and for a 16-byte base key,
`deriveLabelKeyFromBase` is the AES-128 CMAC of that string under the
base key, with a 16-byte output. -/
theorem keyDerivation_correct (label : List Nat) :
    (keyDerivationString label).length = 4 + label.length ∧
      (keyDerivationString label).getD 0 0 = 1 ∧
      (∀ i, i < label.length →
        (keyDerivationString label).getD (1 + i) 0 = label.getD i 0) ∧
      (keyDerivationString label).getD ((keyDerivationString label).length - 2) 0 = 128 ∧
      (keyDerivationString label).getD ((keyDerivationString label).length - 1) 0 = 0 ∧
      ∀ base : List Nat, base.length = 16 →
        deriveLabelKeyFromBase base label = cmacSum base (keyDerivationString label) ∧
          (deriveLabelKeyFromBase base label).length = 16 := by
  have hlen : (keyDerivationString label).length = 4 + label.length := by
    rw [keyDerivationString_eq]
    simp only [List.length_cons, List.length_append, List.length_nil]
    omega
  refine ⟨hlen, ?_, ?_, ?_, ?_, ?_⟩
  · rw [keyDerivationString_eq]; rfl
  · intro i hi
    rw [keyDerivationString_eq, show 1 + i = i + 1 from by omega, List.getD_cons_succ]
    exact List.getD_append label [0, 128, 0] 0 i hi
  · rw [hlen, keyDerivationString_eq,
      show 4 + label.length - 2 = (label.length + 1) + 1 from by omega,
      List.getD_cons_succ, getD_append_right_add label [0, 128, 0] 1 0]
    rfl
  · rw [hlen, keyDerivationString_eq,
      show 4 + label.length - 1 = (label.length + 2) + 1 from by omega,
      List.getD_cons_succ, getD_append_right_add label [0, 128, 0] 2 0]
    rfl
  · intro base hbase
    exact ⟨rfl, cmacSum_length base _ hbase⟩

/-- Witness for C4 at the label "SMK" (bytes [83, 77, 75]) and the
all-zero 16-byte base key. -/
theorem keyDerivation_correct_witness :
    (0 : Nat) < ([83, 77, 75] : List Nat).length ∧
      (List.replicate 16 (0 : Nat)).length = 16 ∧
      (keyDerivationString [83, 77, 75]).getD (1 + 0) 0 = ([83, 77, 75] : List Nat).getD 0 0 ∧
      deriveLabelKeyFromBase (List.replicate 16 0) [83, 77, 75] =
        cmacSum (List.replicate 16 0) (keyDerivationString [83, 77, 75]) ∧
      (deriveLabelKeyFromBase (List.replicate 16 0) [83, 77, 75]).length = 16 :=
  ⟨by decide, by decide,
    (keyDerivation_correct [83, 77, 75]).2.2.1 0 (by decide),
    ((keyDerivation_correct [83, 77, 75]).2.2.2.2.2 (List.replicate 16 0) (by decide)).1,
    ((keyDerivation_correct [83, 77, 75]).2.2.2.2.2 (List.replicate 16 0) (by decide)).2⟩

/-- Witness for C10 on two concrete 32-byte buffers. -/
theorem unmarshal_preserves_buffers_witness :
    (List.replicate 32 (0 : Nat)).length = 32 ∧
      (List.replicate 32 (1 : Nat)).length = 32 ∧
      (unmarshalPublicKey (List.replicate 32 0) (List.replicate 32 1)).2 =
        (List.replicate 32 0, List.replicate 32 1) :=
  ⟨by decide, by decide,
    unmarshal_preserves_buffers (List.replicate 32 0) (List.replicate 32 1)
      (by decide) (by decide)⟩

/-! ## Session-table lemmas -/

theorem assocLookup_mapInsert_self (l : List (Nat × Option Session)) (k : Nat)
    (v : Option Session) : assocLookup (mapInsert l k v) k = some v := by
  induction l with
  | nil => simp [mapInsert, assocLookup]
  | cons p t ih =>
    obtain ⟨k', v'⟩ := p
    by_cases h : k' = k
    · subst h; simp [mapInsert, assocLookup]
    · simp [mapInsert, h, assocLookup, ih]

theorem assocLookup_mapInsert_ne (l : List (Nat × Option Session)) (k : Nat)
    (v : Option Session) (k' : Nat) (h : k' ≠ k) :
    assocLookup (mapInsert l k v) k' = assocLookup l k' := by
  induction l with
  | nil =>
    simp only [mapInsert, assocLookup]
    rw [if_neg (fun he => h he.symm)]
  | cons p t ih =>
    obtain ⟨k0, v0⟩ := p
    by_cases hk : k0 = k
    · subst hk
      simp only [mapInsert, if_pos rfl, assocLookup]
      rw [if_neg (fun he => h he.symm), if_neg (fun he => h he.symm)]
    · simp only [mapInsert, if_neg hk, assocLookup]
      by_cases hk' : k0 = k'
      · rw [if_pos hk', if_pos hk']
      · rw [if_neg hk', if_neg hk', ih]

theorem getSession_false_iff (as : SessionManager) (id : Nat) :
    (getSession as id).2 = false ↔ assocLookup as.sessions id = none := by
  unfold getSession
  cases h : assocLookup as.sessions id <;> simp

theorem pickSessionId_fresh (as : SessionManager) :
    ∀ (cands : List (List Nat)) (id : Nat), pickSessionId as cands = some id →
      assocLookup as.sessions id = none := by
  intro cands
  induction cands with
  | nil => intro id h; simp [pickSessionId] at h
  | cons bs rest ih =>
    intro id h
    by_cases h8 : bs.length = 8
    · by_cases hg : (getSession as (bytesBEToNat bs % 2 ^ 64)).2 = true
      · simp only [pickSessionId, h8, if_true, hg] at h
        exact ih id h
      · simp only [pickSessionId, h8, if_true, Bool.not_eq_true] at h hg
        rw [hg, if_neg (by simp)] at h
        obtain rfl := Option.some.inj h
        exact (getSession_false_iff as _).1 hg
    · simp [pickSessionId, h8] at h

theorem NewSession_some {as : SessionManager} {ch : List Nat} {cands : List (List Nat)}
    {id : Nat} {chal : List Nat} {m' : SessionManager}
    (h : NewSession as ch cands = some ((id, chal), m')) :
    ch.length = 32 ∧ chal = ch ∧ pickSessionId as cands = some id ∧
      m' = ⟨mapInsert as.sessions id (some (mkSession id))⟩ := by
  unfold NewSession at h
  split at h
  · next h32 =>
    cases hp : pickSessionId as cands with
    | none => rw [hp] at h; simp at h
    | some idv =>
      rw [hp] at h
      simp only [Option.some.injEq, Prod.mk.injEq] at h
      obtain ⟨⟨hid, hch⟩, hm⟩ := h
      exact ⟨h32, hch.symm, by rw [hid], by rw [← hm, hid]⟩
  · next h32 => simp at h

theorem createMany_cons {m : SessionManager} {ch : List Nat} {cands : List (List Nat)}
    {rest : List (List Nat × List (List Nat))} {ids : List Nat} {mf : SessionManager}
    (h : createMany m ((ch, cands) :: rest) = some (ids, mf)) :
    ∃ id chal m' ids', NewSession m ch cands = some ((id, chal), m') ∧
      createMany m' rest = some (ids', mf) ∧ ids = id :: ids' := by
  unfold createMany at h
  split at h
  · next id chal m' hN =>
    split at h
    · next ids' mf' hC =>
      simp only [Option.some.injEq, Prod.mk.injEq] at h
      obtain ⟨hids, hmf⟩ := h
      subst hmf
      exact ⟨id, chal, m', ids', hN, hC, hids.symm⟩
    · next hC => simp at h
  · next hN => simp at h

theorem createMany_not_mem :
    ∀ (os : List (List Nat × List (List Nat))) (m : SessionManager) (ids : List Nat)
      (mf : SessionManager) (k : Nat), createMany m os = some (ids, mf) →
      assocLookup m.sessions k ≠ none → k ∉ ids := by
  intro os
  induction os with
  | nil =>
    intro m ids mf k h hk
    unfold createMany at h
    simp only [Option.some.injEq, Prod.mk.injEq] at h
    rw [← h.1]
    exact List.not_mem_nil k
  | cons p rest ih =>
    obtain ⟨ch, cands⟩ := p
    intro m ids mf k h hk
    obtain ⟨id, chal, m', ids', hN, hC, hids⟩ := createMany_cons h
    subst hids
    obtain ⟨-, -, hpick, hm'⟩ := NewSession_some hN
    simp only [List.mem_cons, not_or]
    refine ⟨?_, ?_⟩
    · intro he; subst he
      exact hk (pickSessionId_fresh m cands k hpick)
    · refine ih m' ids' mf k hC ?_
      subst hm'
      by_cases hke : k = id
      · subst hke; rw [assocLookup_mapInsert_self]; simp
      · rw [assocLookup_mapInsert_ne _ _ _ _ hke]; exact hk

theorem createMany_nodup :
    ∀ (os : List (List Nat × List (List Nat))) (m : SessionManager) (ids : List Nat)
      (mf : SessionManager), createMany m os = some (ids, mf) → ids.Nodup := by
  intro os
  induction os with
  | nil =>
    intro m ids mf h
    unfold createMany at h
    simp only [Option.some.injEq, Prod.mk.injEq] at h
    rw [← h.1]
    exact List.nodup_nil
  | cons p rest ih =>
    obtain ⟨ch, cands⟩ := p
    intro m ids mf h
    obtain ⟨id, chal, m', ids', hN, hC, hids⟩ := createMany_cons h
    subst hids
    obtain ⟨-, -, hpick, hm'⟩ := NewSession_some hN
    rw [List.nodup_cons]
    refine ⟨?_, ih m' ids' mf hC⟩
    refine createMany_not_mem rest m' ids' mf id hC ?_
    subst hm'
    rw [assocLookup_mapInsert_self]
    simp

/-! ## The key-0 invariant of reachable manager states -/

theorem reachable_zero_nil {m : SessionManager} (h : Reachable m) :
    assocLookup m.sessions 0 = some none := by
  induction h with
  | init => rfl
  | create m ch cands id chal m' hr hN ih =>
    obtain ⟨-, -, hpick, hm'⟩ := NewSession_some hN
    subst hm'
    have hfresh := pickSessionId_fresh m cands id hpick
    have hne : (0 : Nat) ≠ id := by
      intro he
      rw [← he] at hfresh
      rw [ih] at hfresh
      exact Option.noConfusion hfresh
    rw [assocLookup_mapInsert_ne _ _ _ _ hne]
    exact ih
  | step1 m sid hr ih =>
    cases hl : assocLookup m.sessions sid with
    | none => simp only [Msg1ToMsg2, getSession, hl]; exact ih
    | some v =>
      cases v with
      | none => simp only [Msg1ToMsg2, getSession, hl]; exact ih
      | some s =>
        have hne : (0 : Nat) ≠ sid := by
          intro he
          rw [← he, ih] at hl
          exact Option.noConfusion hl fun h => Option.noConfusion h
        cases hp : processMsg1 s with
        | error e => simp only [Msg1ToMsg2, getSession, hl, hp]; exact ih
        | ok s2 =>
          simp only [Msg1ToMsg2, getSession, hl, hp]
          rw [assocLookup_mapInsert_ne _ _ _ _ hne]
          exact ih
  | step3 m sid hr ih =>
    cases hl : assocLookup m.sessions sid with
    | none => simp only [Msg3ToMsg4, getSession, hl]; exact ih
    | some v =>
      cases v with
      | none => simp only [Msg3ToMsg4, getSession, hl]; exact ih
      | some s =>
        have hne : (0 : Nat) ≠ sid := by
          intro he
          rw [← he, ih] at hl
          exact Option.noConfusion hl fun h => Option.noConfusion h
        cases hp : processMsg3 s with
        | error e => simp only [Msg3ToMsg4, getSession, hl, hp]; exact ih
        | ok s2 =>
          simp only [Msg3ToMsg4, getSession, hl, hp]
          rw [assocLookup_mapInsert_ne _ _ _ _ hne]
          exact ih

/-! ## Claim theorems: session manager -/

/-- C6 (amended): for every session id that is not a key of the session
table, `Msg1ToMsg2` and `Msg3ToMsg4` return the "Session not found"
error and leave the manager state (the table and every stored session)
unchanged. -/
theorem unknown_session_rejected (m : SessionManager) (sid : Nat)
    (h : assocLookup m.sessions sid = none) :
    Msg1ToMsg2 m sid = (Outcome.err "Session not found", m) ∧
      Msg3ToMsg4 m sid = (Outcome.err "Session not found", m) := by
  constructor <;> simp only [Msg1ToMsg2, Msg3ToMsg4, getSession, h]

/-- Witness for the amended C6 at the initial manager and id 1. -/
theorem unknown_session_rejected_witness :
    assocLookup NewSessionManager.sessions 1 = none ∧
      (Msg1ToMsg2 NewSessionManager 1 = (Outcome.err "Session not found", NewSessionManager) ∧
        Msg3ToMsg4 NewSessionManager 1 = (Outcome.err "Session not found", NewSessionManager)) :=
  ⟨by decide, unknown_session_rejected NewSessionManager 1 (by decide)⟩

/-- Counterexample to C6 as stated: in the freshly constructed manager,
session id 0 does not belong to any live session (it is bound to the nil
session seeded at construction), yet neither dispatch returns the
"Session not found" error — both reach the nil-session dereference. -/
theorem session_zero_not_rejected :
    isLiveSession NewSessionManager 0 = false ∧
      (Msg1ToMsg2 NewSessionManager 0).1 ≠ Outcome.err "Session not found" ∧
      (Msg3ToMsg4 NewSessionManager 0).1 ≠ Outcome.err "Session not found" ∧
      (Msg1ToMsg2 NewSessionManager 0).1 = Outcome.nilDeref ∧
      (Msg3ToMsg4 NewSessionManager 0).1 = Outcome.nilDeref := by
  decide

/-- C7: a successful `NewSession` returns an id that is fresh (bound to
no table entry, live or nil, so distinct from every live session's id),
echoes the 32-byte challenge produced by the randomness oracle, and
stores exactly one new session under the returned id (every other key's
binding is unchanged); and sequentially creating N sessions yields N
pairwise-distinct ids. -/
theorem NewSession_fresh_and_distinct :
    (∀ (m : SessionManager) (ch : List Nat) (cands : List (List Nat)) (id : Nat)
        (chal : List Nat) (m' : SessionManager),
      NewSession m ch cands = some ((id, chal), m') →
        assocLookup m.sessions id = none ∧ chal = ch ∧ chal.length = 32 ∧
          assocLookup m'.sessions id = some (some (mkSession id)) ∧
          ∀ k, k ≠ id → assocLookup m'.sessions k = assocLookup m.sessions k) ∧
    ∀ (os : List (List Nat × List (List Nat))) (m : SessionManager) (ids : List Nat)
        (mf : SessionManager), createMany m os = some (ids, mf) → ids.Nodup := by
  constructor
  · intro m ch cands id chal m' hN
    obtain ⟨h32, hch, hpick, hm'⟩ := NewSession_some hN
    subst hm'
    refine ⟨pickSessionId_fresh m cands id hpick, hch, by rw [hch, h32], ?_, ?_⟩
    · exact assocLookup_mapInsert_self m.sessions id (some (mkSession id))
    · intro k hk
      exact assocLookup_mapInsert_ne m.sessions id (some (mkSession id)) k hk
  · exact fun os m ids mf h => createMany_nodup os m ids mf h

/-- Witness for C7: one concrete creation on the fresh manager (oracle
id bytes decoding to 1), and a one-element creation sequence. -/
theorem NewSession_fresh_and_distinct_witness :
    assocLookup NewSessionManager.sessions 1 = none ∧
      assocLookup (SessionManager.mk
        [(0, none), (1, some (mkSession 1))]).sessions 1 = some (some (mkSession 1)) ∧
      List.Nodup [1] :=
  ⟨(NewSession_fresh_and_distinct.1 NewSessionManager (List.replicate 32 0)
      [[0, 0, 0, 0, 0, 0, 0, 1]] 1 (List.replicate 32 0)
      ⟨[(0, none), (1, some (mkSession 1))]⟩ (by decide)).1,
   (NewSession_fresh_and_distinct.1 NewSessionManager (List.replicate 32 0)
      [[0, 0, 0, 0, 0, 0, 0, 1]] 1 (List.replicate 32 0)
      ⟨[(0, none), (1, some (mkSession 1))]⟩ (by decide)).2.2.2.1,
   NewSession_fresh_and_distinct.2 [(List.replicate 32 0, [[0, 0, 0, 0, 0, 0, 0, 1]])]
      NewSessionManager [1] ⟨[(0, none), (1, some (mkSession 1))]⟩ (by decide)⟩

/-- C8, evaluated at the failing input: starting from the fresh manager,
two session creations leave both sessions live — the manager never
receives the configured `maxSessions`/`timeout` values (compare
`NewSessionManager`'s parameters in part_000 lines 24-38 against
`configuration` in config.go) and contains no removal or expiry path at
all, so no capacity cap or inactivity timeout is enforced. -/
theorem manager_never_evicts :
    createMany NewSessionManager
        [(List.replicate 32 0, [[0, 0, 0, 0, 0, 0, 0, 1]]),
         (List.replicate 32 0, [[0, 0, 0, 0, 0, 0, 0, 2]])] =
      some ([1, 2], ⟨[(0, none), (1, some (mkSession 1)), (2, some (mkSession 2))]⟩) ∧
      countLive ⟨[(0, none), (1, some (mkSession 1)), (2, some (mkSession 2))]⟩ = 2 := by
  decide

/-- C9: in every reachable manager state the table maps key 0 to the nil
session seeded at construction, every id a successful `NewSession`
returns is nonzero, and a dispatch addressed to id 0 passes the
table-membership check with a nil session — reaching the nil dereference
rather than the "Session not found" branch. -/
theorem sessionZero_hole (m : SessionManager) (h : Reachable m) :
    assocLookup m.sessions 0 = some none ∧
      (∀ ch cands id chal m', NewSession m ch cands = some ((id, chal), m') → id ≠ 0) ∧
      getSession m 0 = (none, true) ∧
      (Msg1ToMsg2 m 0).1 = Outcome.nilDeref ∧
      (Msg3ToMsg4 m 0).1 = Outcome.nilDeref := by
  have h0 := reachable_zero_nil h
  refine ⟨h0, ?_, ?_, ?_, ?_⟩
  · intro ch cands id chal m' hN he
    subst he
    obtain ⟨-, -, hpick, -⟩ := NewSession_some hN
    have hfresh := pickSessionId_fresh m cands 0 hpick
    rw [h0] at hfresh
    exact Option.noConfusion hfresh
  · simp only [getSession, h0]
  · simp only [Msg1ToMsg2, getSession, h0]
  · simp only [Msg3ToMsg4, getSession, h0]

/-- Witness for C9 at the freshly constructed manager. -/
theorem sessionZero_hole_witness :
    assocLookup NewSessionManager.sessions 0 = some none ∧
      getSession NewSessionManager 0 = (none, true) ∧
      (Msg1ToMsg2 NewSessionManager 0).1 = Outcome.nilDeref ∧
      (Msg3ToMsg4 NewSessionManager 0).1 = Outcome.nilDeref :=
  ⟨(sessionZero_hole NewSessionManager Reachable.init).1,
   (sessionZero_hole NewSessionManager Reachable.init).2.2.1,
   (sessionZero_hole NewSessionManager Reachable.init).2.2.2.1,
   (sessionZero_hole NewSessionManager Reachable.init).2.2.2.2⟩
